import Mathlib

/-!
Verification development for the AnyODE decomposition subsystem
(`anyode_decomposition.hpp`, `anyode_decomposition_lapack.hpp`).

Scalar model. The element type `Real_t` (IEEE double in the shown
instantiations) is modelled by `OQ := Option ℚ`: `some q` is a finite value
in exact arithmetic, `none` is a nonfinite value (infinity or NaN), which is
what IEEE division of a finite value by zero produces.  Arithmetic on a
nonfinite operand never yields a finite value in the operations used by this
code, so nonfiniteness propagates as `none`.

The matrix-view classes (`anyode_matrix.hpp`) and the buffer helpers
(`anyode_buffer.hpp`) are part of this repository but are not in the shown
sources; they are modelled from the spec, section 3: a view is shape metadata
plus a reference to element storage, and a buffer is a fixed-length scratch
allocation.  Views are inlined into the state records below, and each
operation additionally reports the list of buffer-allocation sizes it
performs (one entry per `buffer_factory` call in the source).

The backend primitives (`getrf`/`getrs`/`gbtrf`/`gbtrs`/`gesvd`/`gemv`
callbacks) are the external numeric library, declared by this repository
outside the shown sources; per the spec, sections 2 and 6, they are trusted
and are modelled from the spec.  `gemv` is fully specified by its BLAS
signature and is embedded concretely; the LU and SVD factorizations are
modelled by their documented contracts (as oracle outputs, or as an
exact-arithmetic solve), as noted at each definition.
-/

/-- Finite-or-nonfinite scalar: `some q` models a finite `Real_t` value in
exact arithmetic, `none` models a nonfinite value (infinity or NaN). -/
abbrev OQ : Type := Option ℚ

/-- Addition on the scalar model; a nonfinite operand contaminates the sum. -/
def oadd : OQ → OQ → OQ
  | some a, some b => some (a + b)
  | _, _ => none

/-- Multiplication on the scalar model; a nonfinite operand contaminates the
product (finite · nonfinite is infinite or NaN in IEEE arithmetic). -/
def omul : OQ → OQ → OQ
  | some a, some b => some (a * b)
  | _, _ => none

/-- Division on the scalar model: a finite value divided by zero is
nonfinite (`none`), matching IEEE semantics of `x / 0`. -/
def odiv : OQ → OQ → OQ
  | some a, some b => if b = 0 then none else some (a / b)
  | _, _ => none

/-- Absolute value (`std::fabs`) on the scalar model. -/
def oabs : OQ → OQ := Option.map (fun q => |q|)

/-! ## Diagonal matrix view and `DiagonalInv`

Source: `anyode_decomposition.hpp`, `struct DiagonalInv`. -/

/-- Modelled from the spec, section 3 (the `DiagonalMatrix` view class of
`anyode_matrix.hpp` is not in the shown sources): a diagonal matrix view is a
size `m_nc` and the contiguous array of diagonal entries `m_data`.  The view
does not own the storage; the entry array is carried in this record so that
mutation of the storage is visible to the theorems. -/
structure DiagonalMatrix where
  m_nc : ℕ
  m_data : ℕ → OQ

/-- Result of a factorize call on a diagonal view: the view state after the
call, the returned status, and the sizes of the buffer allocations the call
performed. -/
structure DiagFactRes where
  state : DiagonalMatrix
  info : ℤ
  allocs : List ℕ

/-- Result of a solve call on a diagonal view. -/
structure DiagSolveRes where
  state : DiagonalMatrix
  x : ℕ → OQ
  info : ℤ
  allocs : List ℕ

/-- Embedding of `DiagonalInv::factorize`:
`for (i = 0; i < m_view->m_nc; ++i) m_data[i] = 1/m_data[i]; return 0;`.
Each diagonal entry is replaced in place by its reciprocal, with no zero
check; the status is the constant `0`. -/
def DiagonalInv.factorize (v : DiagonalMatrix) : DiagFactRes :=
  { state := { v with
      m_data := fun i => if i < v.m_nc then odiv (some 1) (v.m_data i) else v.m_data i },
    info := 0,
    allocs := [] }

/-- Embedding of `DiagonalInv::solve`:
`for (i = 0; i < m_view->m_nc; ++i) x[i] = m_data[i]*b[i]; return 0;`.
Entries of `x` beyond `m_nc` are never written by the loop; the model fills
them with a junk `some 0`. -/
def DiagonalInv.solve (v : DiagonalMatrix) (b : ℕ → OQ) : DiagSolveRes :=
  { state := v,
    x := fun i => if i < v.m_nc then omul (v.m_data i) (b i) else some 0,
    info := 0,
    allocs := [] }

/-! ## Dense and banded matrix views, `DenseLU` and `BandedLU` pipelines

Sources: `anyode_decomposition.hpp` (`struct DenseLU`) and
`anyode_decomposition_lapack.hpp` (`struct BandedLU`).  The LU claims treat
the backend in exact arithmetic, so these views carry plain rationals. -/

/-- Modelled from the spec, section 3 (the `DenseMatrix` view class of
`anyode_matrix.hpp` is not in the shown sources): rows `m_nr`, columns
`m_nc`, leading dimension `m_ld`, and a reference to a column-major element
buffer, carried here as the function `m_data`. -/
structure DenseMatrix where
  m_nr : ℕ
  m_nc : ℕ
  m_ld : ℕ
  m_data : ℕ → ℚ

/-- Modelled from the spec, sections 3 and 4.3 (the `BandedMatrix` view class
of `anyode_matrix.hpp` is not in the shown sources): rows, columns, lower and
upper bandwidths, leading dimension, and packed banded storage in the
backend's banded-LU convention, where entry `(i, j)` of the matrix lives at
offset `j * m_ld + (m_kl + m_ku + i - j)` and the leading `m_kl` rows of each
storage column are the extra fill-in rows. -/
structure BandedMatrix where
  m_nr : ℕ
  m_nc : ℕ
  m_kl : ℕ
  m_ku : ℕ
  m_ld : ℕ
  m_data : ℕ → ℚ

/-- The square matrix described by a dense view: the source passes `m_nr`,
`m_data` and `m_ld` to the backend, which reads entry `(i, j)` at
`m_data[j * m_ld + i]` (column-major). -/
def denseToMatrix (D : DenseMatrix) : Matrix (Fin D.m_nr) (Fin D.m_nr) ℚ :=
  Matrix.of fun i j => D.m_data (j.1 * D.m_ld + i.1)

/-- The square matrix described by a banded view: inside the band the entry
is read from the packed storage, outside the band it is zero. -/
def bandedToMatrix (B : BandedMatrix) : Matrix (Fin B.m_nr) (Fin B.m_nr) ℚ :=
  Matrix.of fun i j =>
    if j.1 ≤ i.1 + B.m_ku ∧ i.1 ≤ j.1 + B.m_kl then
      B.m_data (j.1 * B.m_ld + (B.m_kl + B.m_ku + i.1 - j.1))
    else 0

/-- Modelled from the spec, sections 2, 6 and 8: the external backend's
LU-factor / LU-solve pair (`getrf`/`getrs`, `gbtrf`/`gbtrs`), which this
repository declares outside the shown sources and trusts as correct, taken in
exact arithmetic: for a nonsingular matrix it returns the unique solution
`A⁻¹ b` with status `0`; for a singular matrix the factorization reports a
nonzero status and the solution vector is unspecified (junk zeros here,
via the junk value `0⁻¹ = 0`). -/
def lapack_lu_solve (n : ℕ) (A : Matrix (Fin n) (Fin n) ℚ) (b : Fin n → ℚ) :
    (Fin n → ℚ) × ℤ :=
  (A.det⁻¹ • (A.adjugate.mulVec b), if A.det = 0 then 1 else 0)

/-- Embedding of the `DenseLU` factorize-then-solve pipeline: `factorize`
hands the view's `m_nr`, `m_nc`, `m_data`, `m_ld` to the LU factorization,
`solve` copies `b` into `x` and applies the stored factorization; composed,
under the backend contract, this solves the view's square matrix. -/
def DenseLU.factorize_solve (D : DenseMatrix) (b : Fin D.m_nr → ℚ) :
    (Fin D.m_nr → ℚ) × ℤ :=
  lapack_lu_solve D.m_nr (denseToMatrix D) b

/-- Embedding of the `BandedLU` factorize-then-solve pipeline, operating in
place on the packed banded storage with bandwidths `m_kl`, `m_ku`. -/
def BandedLU.factorize_solve (B : BandedMatrix) (b : Fin B.m_nr → ℚ) :
    (Fin B.m_nr → ℚ) × ℤ :=
  lapack_lu_solve B.m_nr (bandedToMatrix B) b

/-- The entries of a tridiagonal matrix with subdiagonal `dl`, diagonal `d`
and superdiagonal `du`. -/
def tridiagEntry (dl d du : ℕ → ℚ) (i j : ℕ) : ℚ :=
  if i = j then d j
  else if i = j + 1 then dl j
  else if j = i + 1 then du i
  else 0

/-- An `n × n` tridiagonal system packed into banded storage with
`m_kl = m_ku = 1` and leading dimension `2 * m_kl + m_ku + 1 = 4`: within
storage column `j`, row 1 holds the superdiagonal entry `du (j - 1)`, row 2
the diagonal entry `d j`, and row 3 the subdiagonal entry `dl j` (row 0 is
the fill-in row). -/
def mkTridiagBanded (n : ℕ) (dl d du : ℕ → ℚ) : BandedMatrix :=
  { m_nr := n, m_nc := n, m_kl := 1, m_ku := 1, m_ld := 4,
    m_data := fun idx =>
      if idx % 4 = 1 then du (idx / 4 - 1)
      else if idx % 4 = 2 then d (idx / 4)
      else if idx % 4 = 3 then dl (idx / 4)
      else 0 }

/-- The densified equivalent of the same tridiagonal system: an `n × n`
column-major dense view with leading dimension `n`. -/
def mkTridiagDense (n : ℕ) (dl d du : ℕ → ℚ) : DenseMatrix :=
  { m_nr := n, m_nc := n, m_ld := n,
    m_data := fun idx => tridiagEntry dl d du (idx % n) (idx / n) }

/-! ## Effect model of `DenseLU` and `BandedLU`

For the frame and allocation claims, each operation is embedded as an
explicit state transformer.  The backend factor/solve primitives receive the
view storage, the pivot buffer and `x` as mutable pointers; each call's
output is an oracle parameter (a `GetrfOut`/`GetrsOut` record holding the
values of those arrays after the call), and the backend's documented frame
contract - `getrs`/`gbtrs` modify only `x` and `info`, leaving the factored
matrix and the pivot array unchanged - appears as hypotheses of the claim
theorems. -/

/-- State of a `DenseLU` strategy: its bound dense view and the pivot buffer
`m_ipiv` with its fixed allocated length. -/
structure DenseLUSt where
  m_view : DenseMatrix
  m_ipiv : ℕ → ℤ
  m_ipivLen : ℕ

/-- Modelled from the spec (the backend and `buffer_t` are outside the shown
sources): output of one `getrf`/`gbtrf` call - the factored matrix storage,
the filled pivot array, and the status. -/
structure GetrfOut where
  a : ℕ → ℚ
  ipiv : ℕ → ℤ
  info : ℤ

/-- Modelled from the spec: output of one `getrs`/`gbtrs` call - the values
of the matrix storage, pivot array and solution vector after the call, and
the status. -/
structure GetrsOut where
  a : ℕ → ℚ
  ipiv : ℕ → ℤ
  x : ℕ → ℚ
  info : ℤ

/-- Result of a `DenseLU` factorize call. -/
structure DenseFactRes where
  state : DenseLUSt
  info : ℤ
  allocs : List ℕ

/-- Result of a `DenseLU` solve call. -/
structure DenseSolveRes where
  state : DenseLUSt
  x : ℕ → ℚ
  info : ℤ
  allocs : List ℕ

/-- Embedding of the `DenseLU` constructor: stores the view pointer and
allocates the pivot buffer `m_ipiv` with `buffer_factory<int>(view->m_nr)`
(the single allocation reported); buffer contents are unspecified until
`factorize` writes them, zeros here. -/
def DenseLU.mk (view : DenseMatrix) : DenseLUSt × List ℕ :=
  ({ m_view := view, m_ipiv := fun _ => 0, m_ipivLen := view.m_nr }, [view.m_nr])

/-- Embedding of `DenseLU::factorize`: one `getrf` call on the view storage
and the pivot buffer; returns `info`, performs no allocation. -/
def DenseLU.factorize (st : DenseLUSt) (g : GetrfOut) : DenseFactRes :=
  { state := { st with m_view := { st.m_view with m_data := g.a }, m_ipiv := g.ipiv },
    info := g.info,
    allocs := [] }

/-- Embedding of `DenseLU::solve`: copies `b` into the caller's `x`
(`std::copy(b, b + m_nr, x)`), then one `getrs` call transforms `x` in place;
`b` is only read, and the call performs no allocation.  The arrays passed
mutably to `getrs` are returned as the oracle reports them. -/
def DenseLU.solve (st : DenseLUSt) (b : ℕ → ℚ) (g : GetrsOut) : DenseSolveRes :=
  { state := { st with m_view := { st.m_view with m_data := g.a }, m_ipiv := g.ipiv },
    x := g.x,
    info := g.info,
    allocs := [] }

/-- State of a `BandedLU` strategy: its bound banded view and the pivot
buffer with its fixed allocated length. -/
structure BandedLUSt where
  m_view : BandedMatrix
  m_ipiv : ℕ → ℤ
  m_ipivLen : ℕ

/-- Result of a `BandedLU` factorize call. -/
structure BandedFactRes where
  state : BandedLUSt
  info : ℤ
  allocs : List ℕ

/-- Result of a `BandedLU` solve call. -/
structure BandedSolveRes where
  state : BandedLUSt
  x : ℕ → ℚ
  info : ℤ
  allocs : List ℕ

/-- Embedding of the `BandedLU` constructor: allocates the pivot buffer of
length `view->m_nr`. -/
def BandedLU.mk (view : BandedMatrix) : BandedLUSt × List ℕ :=
  ({ m_view := view, m_ipiv := fun _ => 0, m_ipivLen := view.m_nr }, [view.m_nr])

/-- Embedding of `BandedLU::factorize`: one `gbtrf` call, in place on the
packed storage; no allocation. -/
def BandedLU.factorize (st : BandedLUSt) (g : GetrfOut) : BandedFactRes :=
  { state := { st with m_view := { st.m_view with m_data := g.a }, m_ipiv := g.ipiv },
    info := g.info,
    allocs := [] }

/-- Embedding of `BandedLU::solve`: copies `b` into `x`, then one `gbtrs`
call transforms `x` in place; no allocation. -/
def BandedLU.solve (st : BandedLUSt) (b : ℕ → ℚ) (g : GetrsOut) : BandedSolveRes :=
  { state := { st with m_view := { st.m_view with m_data := g.a }, m_ipiv := g.ipiv },
    x := g.x,
    info := g.info,
    allocs := [] }

/-! ## The `SVD` strategy

Source: `anyode_decomposition_lapack.hpp`, `struct SVD`.  The scalar type is
the finite-or-nonfinite model `OQ`, because `SVD::solve` divides by the
stored singular values with no zero guard. -/

/-- State of an `SVD` strategy: the bound dense view (dimensions, leading
dimension and storage), the factor buffers `m_s`, `m_u`, `m_vt`, the work
buffer, their fixed allocated lengths, the leading dimensions `m_ldu` and
`m_ldvt`, the work size `m_lwork`, and the diagnostic
`m_condition_number`. -/
structure SVDSt where
  m_nr : ℕ
  m_nc : ℕ
  m_ld : ℕ
  m_viewData : ℕ → OQ
  m_s : ℕ → OQ
  m_sLen : ℕ
  m_ldu : ℕ
  m_u : ℕ → OQ
  m_uLen : ℕ
  m_ldvt : ℕ
  m_vt : ℕ → OQ
  m_vtLen : ℕ
  m_work : ℕ → OQ
  m_workLen : ℕ
  m_lwork : ℤ
  m_condition_number : OQ

/-- Modelled from the spec: output of one full `gesvd` call - the values of
the destroyed input storage `a`, the singular values `s`, the factors `u`
and `vt`, the scratch `work` after the call, and the status. -/
structure GesvdOut where
  a : ℕ → OQ
  s : ℕ → OQ
  u : ℕ → OQ
  vt : ℕ → OQ
  work : ℕ → OQ
  info : ℤ

/-- Result of an `SVD` factorize call. -/
structure SvdFactRes where
  state : SVDSt
  info : ℤ
  allocs : List ℕ

/-- Result of an `SVD` solve call; `gemvCalls` counts the matrix-vector
product calls the operation performs. -/
structure SvdSolveRes where
  state : SVDSt
  x : ℕ → OQ
  info : ℤ
  allocs : List ℕ
  gemvCalls : ℕ

/-- Embedding of the `SVD` constructor: member initialization allocates
`m_s` of length `min(m_nr, m_nc)`, `m_u` of length `m_ldu * m_nr` with
`m_ldu = m_nr`, `m_vt` of length `m_ldvt * m_nc` with `m_ldvt = m_nc`; the
body performs the workspace-size query (`m_lwork = -1` sentinel) against the
backend - the returned optimal size is the oracle parameter
`optim_work_size` - and then allocates `m_work` of that length.  The member
initializer `Real_t m_condition_number = -1` leaves the sentinel `-1` in
place; buffer contents are unspecified until `factorize`, zeros here. -/
def SVD.mk (nr nc ld : ℕ) (viewData : ℕ → OQ) (optim_work_size : ℕ) :
    SVDSt × List ℕ :=
  ({ m_nr := nr, m_nc := nc, m_ld := ld, m_viewData := viewData,
     m_s := fun _ => some 0, m_sLen := min nr nc,
     m_ldu := nr, m_u := fun _ => some 0, m_uLen := nr * nr,
     m_ldvt := nc, m_vt := fun _ => some 0, m_vtLen := nc * nc,
     m_work := fun _ => some 0, m_workLen := optim_work_size,
     m_lwork := (optim_work_size : ℤ), m_condition_number := some (-1) },
   [min nr nc, nr * nr, nc * nc, optim_work_size])

/-- Embedding of `SVD::factorize`: one full `gesvd` call fills `m_s`, `m_u`,
`m_vt`, destroys the view storage and uses `m_work` as scratch (all taken
from the oracle `g`); then
`m_condition_number = fabs(m_s[0] / m_s[min(m_nr, m_nc) - 1])` is stored and
`info` is returned.  No allocation is performed. -/
def SVD.factorize (st : SVDSt) (g : GesvdOut) : SvdFactRes :=
  { state := { st with
      m_viewData := g.a, m_s := g.s, m_u := g.u, m_vt := g.vt, m_work := g.work,
      m_condition_number := oabs (odiv (g.s 0) (g.s (min st.m_nr st.m_nc - 1))) },
    info := g.info,
    allocs := [] }

/-- Embedding of the backend `gemv` callback as called by `SVD::solve`:
`trans = 'T'`, `alpha = 1`, `beta = 0`, `incx = incy = 1`, so the call writes
`y[j] = sum over k < m of A[k][j] * x[k]` for `j < n`, reading the matrix
entry `A[k][j]` at offset `j * lda + k`.  The `n` argument delimits which
`y` entries the call writes; this functional model defines the value at
every `j` by the same formula. -/
def gemvT (m n lda : ℕ) (a x : ℕ → OQ) : ℕ → OQ :=
  fun j => ((List.range m).map (fun k => omul (a (j * lda + k)) (x k))).foldr oadd (some 0)

/-- The solution vector computed by `SVD::solve`: `y1 = gemv('T', m_u, b)`
over the leading `m_nr × m_nr` block of `m_u`, then `y1[i] /= m_s[i]` for
`i < m_nr` (no zero guard), then `x = gemv('T', m_vt, y1)` over the leading
`m_nc × m_nc` block of `m_vt`. -/
def svdSolveVec (nr nc ldu ldvt : ℕ) (u s vt b : ℕ → OQ) : ℕ → OQ :=
  gemvT nc nc ldvt vt
    (fun i => if i < nr then odiv (gemvT nr nr ldu u b i) (s i) else gemvT nr nr ldu u b i)

/-- Embedding of `SVD::solve`: allocates the temporary
`y1 = buffer_factory<Real_t>(m_view->m_nr)` (the single reported allocation),
performs two `gemv` calls with the elementwise division by the singular
values between them, and returns the constant status `0`.  `gemv` writes
only its output vector, so the strategy state is returned unchanged. -/
def SVD.solve (st : SVDSt) (b : ℕ → OQ) : SvdSolveRes :=
  { state := st,
    x := svdSolveVec st.m_nr st.m_nc st.m_ldu st.m_ldvt st.m_u st.m_s st.m_vt b,
    info := 0,
    allocs := [st.m_nr],
    gemvCalls := 2 }

/-- Folding `SVD.solve` over a list of right-hand sides, to speak about the
state after any sequence of solve calls. -/
def SVD.applySolves (st : SVDSt) (bs : List (ℕ → OQ)) : SVDSt :=
  bs.foldl (fun s b => (SVD.solve s b).state) st

/-! ## Mathematical reading of the SVD solve

`toMat`/`toVec` read `ℕ`-indexed data as Mathlib matrices and vectors;
`specSvdSolution` is the spec's formula `x = V Σ⁻¹ Uᵀ b`, written from the
spec's words (`m_vt` stores `Vᵀ`, so `V = Vtᵀ`), to be compared with the
embedded `svdSolveVec`. -/

/-- The `n × n` matrix with entries drawn from a total function. -/
def toMat (n : ℕ) (M : ℕ → ℕ → ℚ) : Matrix (Fin n) (Fin n) ℚ :=
  Matrix.of fun i j => M i.1 j.1

/-- The `n`-vector with entries drawn from a total function. -/
def toVec (n : ℕ) (v : ℕ → ℚ) : Fin n → ℚ :=
  fun i => v i.1

/-- The spec's solution formula `x = V Σ⁻¹ Uᵀ b`: apply `Uᵀ`, divide
elementwise by the singular values, apply `V = Vtᵀ`.  This definition
follows the spec's words. -/
def specSvdSolution (n : ℕ) (U Vt : ℕ → ℕ → ℚ) (sg bq : ℕ → ℚ) : Fin n → ℚ :=
  (toMat n Vt).transpose.mulVec
    (fun i => ((toMat n U).transpose.mulVec (toVec n bq)) i / sg i.1)

/-- Squared Euclidean norm of a rational vector. -/
def l2sq (n : ℕ) (v : Fin n → ℚ) : ℚ := ∑ i, (v i) ^ 2

/-- `x` is a minimum-norm least-squares solution of `A x = b`: it minimizes
the squared residual, and among all vectors whose residual is at most as
small (hence equal) it has the smallest squared norm. -/
def IsMinNormLS (n : ℕ) (A : Matrix (Fin n) (Fin n) ℚ) (b x : Fin n → ℚ) : Prop :=
  (∀ y, l2sq n (A.mulVec x - b) ≤ l2sq n (A.mulVec y - b))
  ∧ (∀ y, l2sq n (A.mulVec y - b) ≤ l2sq n (A.mulVec x - b) → l2sq n x ≤ l2sq n y)

/-- The matrix the backend factorized, recomposed from its SVD output:
`A = U · diag(σ) · Vᵀ`. -/
def svdRecomposed (n : ℕ) (U Vt : ℕ → ℕ → ℚ) (sg : ℕ → ℚ) :
    Matrix (Fin n) (Fin n) ℚ :=
  toMat n U * Matrix.diagonal (fun i : Fin n => sg i.1) * toMat n Vt

/-- The inverse `V · diag(σ)⁻¹ · Uᵀ` built from the SVD factors. -/
def svdLeftInv (n : ℕ) (U Vt : ℕ → ℕ → ℚ) (sg : ℕ → ℚ) :
    Matrix (Fin n) (Fin n) ℚ :=
  (toMat n Vt).transpose
    * (Matrix.diagonal (fun i : Fin n => (sg i.1)⁻¹) * (toMat n U).transpose)

/-! ## Concrete instances used by witnesses and counterexamples -/

/-- A factorized `SVD` state for the 1-by-1 identity matrix: `U = [1]`,
`s = [1]`, `Vt = [1]`. -/
def svdStIdentity : SVDSt :=
  { m_nr := 1, m_nc := 1, m_ld := 1, m_viewData := fun _ => some 1,
    m_s := fun _ => some 1, m_sLen := 1,
    m_ldu := 1, m_u := fun _ => some 1, m_uLen := 1,
    m_ldvt := 1, m_vt := fun _ => some 1, m_vtLen := 1,
    m_work := fun _ => some 0, m_workLen := 1, m_lwork := 1,
    m_condition_number := some 1 }

/-- A factorized `SVD` state for the rank-deficient 1-by-1 zero matrix:
`U = [1]`, `s = [0]`, `Vt = [1]`, so `A = U Σ Vᵀ = [0]`. -/
def svdStRankDef : SVDSt :=
  { m_nr := 1, m_nc := 1, m_ld := 1, m_viewData := fun _ => some 0,
    m_s := fun _ => some 0, m_sLen := 1,
    m_ldu := 1, m_u := fun _ => some 1, m_uLen := 1,
    m_ldvt := 1, m_vt := fun _ => some 1, m_vtLen := 1,
    m_work := fun _ => some 0, m_workLen := 1, m_lwork := 1,
    m_condition_number := none }

/-- A concrete `gesvd` output with singular values all 2. -/
def gesvdExample : GesvdOut :=
  { a := fun _ => some 0, s := fun _ => some 2, u := fun _ => some 1,
    vt := fun _ => some 1, work := fun _ => some 0, info := 0 }

/-- A concrete 1-by-1 dense view. -/
def denseViewExample : DenseMatrix := ⟨1, 1, 1, fun _ => 1⟩

/-- A `DenseLU` strategy over `denseViewExample`. -/
def denseLUExample : DenseLUSt := (DenseLU.mk denseViewExample).1

/-- A concrete 1-by-1 banded view. -/
def bandedViewExample : BandedMatrix := ⟨1, 1, 0, 0, 1, fun _ => 1⟩

/-- A `BandedLU` strategy over `bandedViewExample`. -/
def bandedLUExample : BandedLUSt := (BandedLU.mk bandedViewExample).1

/-- A `getrs` output obeying the backend frame contract for
`denseLUExample`. -/
def getrsDenseExample : GetrsOut :=
  { a := denseLUExample.m_view.m_data, ipiv := denseLUExample.m_ipiv,
    x := fun _ => 1, info := 0 }

/-- A `gbtrs` output obeying the backend frame contract for
`bandedLUExample`. -/
def getrsBandedExample : GetrsOut :=
  { a := bandedLUExample.m_view.m_data, ipiv := bandedLUExample.m_ipiv,
    x := fun _ => 1, info := 0 }

/-- Decidable in-bounds check for every buffer access `SVD::solve` performs,
as a function of the view dimensions `m_nr`, `m_nc` (with `m_ldu = m_nr`,
`m_ldvt = m_nc` as set by the constructor).  First group: the first `gemv`
(`m = n = m_nr`) reads `m_u` at `j * m_nr + k` against the `m_u` length
`m_nr * m_nr`, reads `b` at `k` against the caller's length `m_nr`, and
writes `y1` at `j` against the `y1` length `m_nr`.  Second group: the
division loop reads and writes `y1` at `i < m_nr` and reads `m_s` at `i`
against the `m_s` length `min(m_nr, m_nc)`.  Third group: the second `gemv`
(`m = n = m_nc`) reads `m_vt` at `j * m_nc + k` against the `m_vt` length
`m_nc * m_nc`, reads `y1` at `k` against length `m_nr`, and writes the
caller's `x` at `j` against its length `m_nr`. -/
def svdSolveInBounds (nr nc : ℕ) : Bool :=
  decide ((∀ j, j < nr → ∀ k, k < nr → j * nr + k < nr * nr ∧ k < nr ∧ j < nr)
    ∧ (∀ i, i < nr → i < nr ∧ i < min nr nc)
    ∧ (∀ j, j < nc → (∀ k, k < nc → j * nc + k < nc * nc ∧ k < nr) ∧ j < nr))

/-! ## Claim theorems for `DiagonalInv` (C2, C3, C9), the banded-dense
equivalence (C7), and supporting lemmas for the SVD claims -/

/-- C2.  For every diagonal matrix view whose entries `A[i][i]` are all
nonzero (and finite) and every finite right-hand side `b`, running
`DiagonalInv.factorize()` once and then `solve(b, x)` yields
`x[i] = b[i] / A[i][i]` for every index `i` in `[0, size)`. -/
theorem diagonalInv_factorize_solve_divides
    (v : DiagonalMatrix) (a bq : ℕ → ℚ) (b : ℕ → OQ)
    (ha : ∀ i, i < v.m_nc → v.m_data i = some (a i))
    (ha0 : ∀ i, i < v.m_nc → a i ≠ 0)
    (hb : ∀ i, i < v.m_nc → b i = some (bq i)) :
    ∀ i, i < v.m_nc →
      (DiagonalInv.solve (DiagonalInv.factorize v).state b).x i = some (bq i / a i) := by
  intro i hi
  simp only [DiagonalInv.solve, DiagonalInv.factorize, hi, if_pos]
  rw [ha i hi, hb i hi]
  simp only [odiv, if_neg (ha0 i hi), omul]
  rw [one_div, inv_mul_eq_div]

/-- Witness for C2: a concrete 1-entry diagonal view with entry 2 and
right-hand side 6 solves to `6 / 2 = 3`. -/
theorem diagonalInv_factorize_solve_divides_witness :
    (DiagonalInv.solve (DiagonalInv.factorize ⟨1, fun _ => some 2⟩).state
      (fun _ => some 6)).x 0 = some 3 := by
  have h := diagonalInv_factorize_solve_divides ⟨1, fun _ => some 2⟩
    (fun _ => (2 : ℚ)) (fun _ => (6 : ℚ)) (fun _ => some 6)
    (fun _ _ => rfl) (fun _ _ => by norm_num) (fun _ _ => rfl) 0 (by norm_num)
  rw [h]
  norm_num

/-- C3.  For every diagonal matrix view, including views containing zero
entries, `DiagonalInv.factorize()` replaces each diagonal entry with its
reciprocal in place (a zero entry becomes the nonfinite value `none`, since
there is no zero check) and returns status `0` unconditionally; `solve`
likewise returns `0` for every input. -/
theorem diagonalInv_no_failure_path (v : DiagonalMatrix) :
    (DiagonalInv.factorize v).info = 0
    ∧ (∀ i, i < v.m_nc →
        (DiagonalInv.factorize v).state.m_data i = odiv (some 1) (v.m_data i))
    ∧ (∀ i, i < v.m_nc → v.m_data i = some 0 →
        (DiagonalInv.factorize v).state.m_data i = none)
    ∧ (∀ b, (DiagonalInv.solve v b).info = 0) := by
  refine ⟨rfl, fun i hi => ?_, fun i hi h0 => ?_, fun _ => rfl⟩
  · simp [DiagonalInv.factorize, hi]
  · simp [DiagonalInv.factorize, hi, h0, odiv]

/-- C9.  For every diagonal matrix view whose entries are all nonzero (and
finite), calling `DiagonalInv.factorize()` twice in succession restores every
diagonal entry to its original value, and both calls return `0`. -/
theorem diagonalInv_factorize_involutive
    (v : DiagonalMatrix) (a : ℕ → ℚ)
    (ha : ∀ i, i < v.m_nc → v.m_data i = some (a i))
    (ha0 : ∀ i, i < v.m_nc → a i ≠ 0) :
    (DiagonalInv.factorize v).info = 0
    ∧ (DiagonalInv.factorize (DiagonalInv.factorize v).state).info = 0
    ∧ ∀ i, i < v.m_nc →
        (DiagonalInv.factorize (DiagonalInv.factorize v).state).state.m_data i
          = v.m_data i := by
  refine ⟨rfl, rfl, fun i hi => ?_⟩
  simp only [DiagonalInv.factorize, hi, if_pos]
  rw [ha i hi]
  simp only [odiv, if_neg (ha0 i hi)]
  rw [one_div, if_neg (inv_ne_zero (ha0 i hi))]
  rw [one_div, inv_inv]

/-- Witness for C9: reciprocating the 1-entry view with entry 2 twice
returns the entry to 2, with both statuses 0. -/
theorem diagonalInv_factorize_involutive_witness :
    (DiagonalInv.factorize ⟨1, fun _ => some 2⟩).info = 0
    ∧ (DiagonalInv.factorize (DiagonalInv.factorize ⟨1, fun _ => some 2⟩).state).info = 0
    ∧ (DiagonalInv.factorize
        (DiagonalInv.factorize ⟨1, fun _ => some 2⟩).state).state.m_data 0 = some 2 := by
  have h := diagonalInv_factorize_involutive ⟨1, fun _ => some 2⟩ (fun _ => (2 : ℚ))
    (fun _ _ => rfl) (fun _ _ => by norm_num)
  exact ⟨h.1, h.2.1, h.2.2 0 (by norm_num)⟩

theorem denseToMatrix_mkTridiag (n : ℕ) (dl d du : ℕ → ℚ) (i j : Fin n) :
    denseToMatrix (mkTridiagDense n dl d du) i j = tridiagEntry dl d du i.1 j.1 := by
  have hn : 0 < n := i.pos
  simp only [denseToMatrix, mkTridiagDense, Matrix.of_apply]
  have hmod : (j.1 * n + i.1) % n = i.1 := by
    rw [Nat.mul_comm, Nat.mul_add_mod, Nat.mod_eq_of_lt i.isLt]
  have hdiv : (j.1 * n + i.1) / n = j.1 := by
    rw [Nat.mul_comm, Nat.mul_add_div hn, Nat.div_eq_of_lt i.isLt, Nat.add_zero]
  rw [hmod, hdiv]

theorem mkTridiagBanded_data_super (n : ℕ) (dl d du : ℕ → ℚ) (j : ℕ) :
    (mkTridiagBanded n dl d du).m_data (j * 4 + 1) = du (j - 1) := by
  simp only [mkTridiagBanded]
  rw [if_pos (show (j * 4 + 1) % 4 = 1 by omega)]
  congr 1
  omega

theorem mkTridiagBanded_data_diag (n : ℕ) (dl d du : ℕ → ℚ) (j : ℕ) :
    (mkTridiagBanded n dl d du).m_data (j * 4 + 2) = d j := by
  simp only [mkTridiagBanded]
  rw [if_neg (show ¬(j * 4 + 2) % 4 = 1 by omega),
    if_pos (show (j * 4 + 2) % 4 = 2 by omega)]
  congr 1
  omega

theorem mkTridiagBanded_data_sub (n : ℕ) (dl d du : ℕ → ℚ) (j : ℕ) :
    (mkTridiagBanded n dl d du).m_data (j * 4 + 3) = dl j := by
  simp only [mkTridiagBanded]
  rw [if_neg (show ¬(j * 4 + 3) % 4 = 1 by omega),
    if_neg (show ¬(j * 4 + 3) % 4 = 2 by omega),
    if_pos (show (j * 4 + 3) % 4 = 3 by omega)]
  congr 1
  omega

theorem bandedToMatrix_mkTridiag (n : ℕ) (dl d du : ℕ → ℚ) (i j : Fin n) :
    bandedToMatrix (mkTridiagBanded n dl d du) i j = tridiagEntry dl d du i.1 j.1 := by
  have hkl : (mkTridiagBanded n dl d du).m_kl = 1 := rfl
  have hku : (mkTridiagBanded n dl d du).m_ku = 1 := rfl
  have hld : (mkTridiagBanded n dl d du).m_ld = 4 := rfl
  simp only [bandedToMatrix, Matrix.of_apply, hkl, hku, hld, tridiagEntry]
  rcases Nat.lt_trichotomy i.1 j.1 with hlt | heq | hgt
  · rcases Nat.lt_or_ge j.1 (i.1 + 2) with hj2 | hj2
    · have hidx : j.1 * 4 + (1 + 1 + i.1 - j.1) = j.1 * 4 + 1 := by omega
      rw [if_pos (by omega), hidx, mkTridiagBanded_data_super]
      rw [if_neg (by omega), if_neg (by omega), if_pos (by omega)]
      congr 1
      omega
    · rw [if_neg (by omega), if_neg (by omega), if_neg (by omega), if_neg (by omega)]
  · have hidx : j.1 * 4 + (1 + 1 + i.1 - j.1) = j.1 * 4 + 2 := by omega
    rw [if_pos (by omega), hidx, mkTridiagBanded_data_diag, if_pos heq]
  · rcases Nat.lt_or_ge i.1 (j.1 + 2) with hi2 | hi2
    · have hidx : j.1 * 4 + (1 + 1 + i.1 - j.1) = j.1 * 4 + 3 := by omega
      rw [if_pos (by omega), hidx, mkTridiagBanded_data_sub]
      rw [if_neg (by omega), if_pos (by omega)]
    · rw [if_neg (by omega), if_neg (by omega), if_neg (by omega), if_neg (by omega)]

/-- C7.  For every tridiagonal system (lower bandwidth 1, upper bandwidth 1)
and every right-hand side `b`, factorize-then-solve via `BandedLU` on the
packed banded view produces the same solution (and status) as
factorize-then-solve via `DenseLU` on the densified equivalent of the same
matrix. -/
theorem bandedLU_matches_denseLU_on_tridiagonal
    (n : ℕ) (dl d du : ℕ → ℚ) (b : Fin n → ℚ) :
    BandedLU.factorize_solve (mkTridiagBanded n dl d du) b
      = DenseLU.factorize_solve (mkTridiagDense n dl d du) b := by
  show lapack_lu_solve n (bandedToMatrix (mkTridiagBanded n dl d du)) b
      = lapack_lu_solve n (denseToMatrix (mkTridiagDense n dl d du)) b
  have hM : bandedToMatrix (mkTridiagBanded n dl d du)
      = denseToMatrix (mkTridiagDense n dl d du) := by
    ext i j
    rw [bandedToMatrix_mkTridiag, denseToMatrix_mkTridiag]
  rw [hM]

theorem foldr_oadd_map_some (l : List ℚ) :
    (l.map some).foldr oadd (some 0) = some l.sum := by
  induction l with
  | nil => rfl
  | cons a t ih =>
    show oadd (some a) ((t.map some).foldr oadd (some 0)) = some (a :: t).sum
    rw [ih, List.sum_cons]
    rfl

theorem list_range_map_sum (f : ℕ → ℚ) (m : ℕ) :
    ((List.range m).map f).sum = ∑ k ∈ Finset.range m, f k := by
  induction m with
  | zero => rfl
  | succ m ih =>
    rw [List.range_succ, List.map_append, List.sum_append, Finset.sum_range_succ, ih]
    simp

/-- A `gemvT` call whose matrix and vector inputs are finite at the read
offsets computes the finite dot product. -/
theorem gemvT_some (m n lda : ℕ) (a x : ℕ → OQ) (f g : ℕ → ℚ) (j : ℕ)
    (ha : ∀ k, k < m → a (j * lda + k) = some (f k))
    (hx : ∀ k, k < m → x k = some (g k)) :
    gemvT m n lda a x j = some (∑ k ∈ Finset.range m, f k * g k) := by
  unfold gemvT
  have hmap : (List.range m).map (fun k => omul (a (j * lda + k)) (x k))
      = ((List.range m).map (fun k => f k * g k)).map some := by
    rw [List.map_map]
    apply List.map_congr_left
    intro k hk
    rw [List.mem_range] at hk
    rw [ha k hk, hx k hk]
    rfl
  rw [hmap, foldr_oadd_map_some, list_range_map_sum]

/-- The embedded `SVD::solve` computation agrees, entry by entry, with the
spec formula `V Σ⁻¹ Uᵀ b`, for a square view with finite factor data and
nonzero singular values. -/
theorem svdSolveVec_formula (n : ℕ) (U Vt : ℕ → ℕ → ℚ) (sg bq : ℕ → ℚ)
    (u vt s b : ℕ → OQ)
    (hu : ∀ r c, r < n → c < n → u (c * n + r) = some (U r c))
    (hvt : ∀ r c, r < n → c < n → vt (c * n + r) = some (Vt r c))
    (hs : ∀ i, i < n → s i = some (sg i))
    (hb : ∀ i, i < n → b i = some (bq i))
    (hsg : ∀ i, i < n → sg i ≠ 0) :
    ∀ j : Fin n, svdSolveVec n n n n u s vt b j.1
      = some (specSvdSolution n U Vt sg bq j) := by
  intro j
  have hy1 : ∀ k, k < n →
      gemvT n n n u b k = some (∑ t ∈ Finset.range n, U t k * bq t) := by
    intro k hk
    exact gemvT_some n n n u b (fun t => U t k) bq k
      (fun t ht => hu t k ht hk) hb
  have hy1d : ∀ k, k < n →
      (if k < n then odiv (gemvT n n n u b k) (s k) else gemvT n n n u b k)
        = some ((∑ t ∈ Finset.range n, U t k * bq t) / sg k) := by
    intro k hk
    rw [if_pos hk, hy1 k hk, hs k hk]
    simp [odiv, hsg k hk]
  unfold svdSolveVec
  rw [gemvT_some n n n vt _ (fun k => Vt k j.1)
    (fun k => (∑ t ∈ Finset.range n, U t k * bq t) / sg k) j.1
    (fun k hk => hvt k j.1 hk j.isLt) hy1d]
  congr 1
  have hdot : ∀ i : Fin n,
      ((toMat n U).transpose.mulVec (toVec n bq)) i
        = ∑ t ∈ Finset.range n, U t i.1 * bq t := by
    intro i
    show ∑ t : Fin n, (toMat n U).transpose i t * toVec n bq t = _
    simp only [Matrix.transpose_apply, toMat, Matrix.of_apply, toVec]
    exact Fin.sum_univ_eq_sum_range (fun t => U t i.1 * bq t) n
  symm
  show ∑ i : Fin n, (toMat n Vt).transpose j i
      * (((toMat n U).transpose.mulVec (toVec n bq)) i / sg i.1) = _
  rw [show (∑ i : Fin n, (toMat n Vt).transpose j i
      * (((toMat n U).transpose.mulVec (toVec n bq)) i / sg i.1))
      = ∑ i : Fin n, Vt i.1 j.1 * ((∑ t ∈ Finset.range n, U t i.1 * bq t) / sg i.1)
    from Finset.sum_congr rfl (fun i _ => by
      rw [hdot i]
      simp only [Matrix.transpose_apply, toMat, Matrix.of_apply])]
  exact Fin.sum_univ_eq_sum_range
    (fun k => Vt k j.1 * ((∑ t ∈ Finset.range n, U t k * bq t) / sg k)) n

theorem specSvdSolution_eq_leftInv_mulVec (n : ℕ) (U Vt : ℕ → ℕ → ℚ)
    (sg bq : ℕ → ℚ) :
    specSvdSolution n U Vt sg bq = (svdLeftInv n U Vt sg).mulVec (toVec n bq) := by
  unfold specSvdSolution svdLeftInv
  have hdv : (fun i => ((toMat n U).transpose.mulVec (toVec n bq)) i / sg i.1)
      = (Matrix.diagonal (fun i : Fin n => (sg i.1)⁻¹)).mulVec
          ((toMat n U).transpose.mulVec (toVec n bq)) := by
    funext i
    rw [Matrix.mulVec_diagonal, div_eq_inv_mul]
  rw [hdv, Matrix.mulVec_mulVec, Matrix.mulVec_mulVec, Matrix.mul_assoc]

theorem svdLeftInv_mul (n : ℕ) (U Vt : ℕ → ℕ → ℚ) (sg : ℕ → ℚ)
    (hsg : ∀ i, i < n → sg i ≠ 0)
    (hU : (toMat n U).transpose * toMat n U = 1)
    (hV : (toMat n Vt).transpose * toMat n Vt = 1) :
    svdLeftInv n U Vt sg * svdRecomposed n U Vt sg = 1 := by
  unfold svdLeftInv svdRecomposed
  have hDD : Matrix.diagonal (fun i : Fin n => (sg i.1)⁻¹)
      * Matrix.diagonal (fun i : Fin n => sg i.1) = 1 := by
    rw [Matrix.diagonal_mul_diagonal,
      show (fun i : Fin n => (sg i.1)⁻¹ * sg i.1) = fun _ : Fin n => (1 : ℚ)
        from funext fun i => inv_mul_cancel₀ (hsg i.1 i.isLt)]
    exact Matrix.diagonal_one
  have cancelU : ∀ Z : Matrix (Fin n) (Fin n) ℚ,
      (toMat n U).transpose * (toMat n U * Z) = Z := fun Z => by
    rw [← Matrix.mul_assoc, hU, Matrix.one_mul]
  have cancelD : ∀ Z : Matrix (Fin n) (Fin n) ℚ,
      Matrix.diagonal (fun i : Fin n => (sg i.1)⁻¹)
        * (Matrix.diagonal (fun i : Fin n => sg i.1) * Z) = Z := fun Z => by
    rw [← Matrix.mul_assoc, hDD, Matrix.one_mul]
  simp only [Matrix.mul_assoc]
  rw [cancelU, cancelD]
  exact hV

theorem mul_svdLeftInv (n : ℕ) (U Vt : ℕ → ℕ → ℚ) (sg : ℕ → ℚ)
    (hsg : ∀ i, i < n → sg i ≠ 0)
    (hU : (toMat n U).transpose * toMat n U = 1)
    (hV : (toMat n Vt).transpose * toMat n Vt = 1) :
    svdRecomposed n U Vt sg * svdLeftInv n U Vt sg = 1 := by
  unfold svdLeftInv svdRecomposed
  have hDD : Matrix.diagonal (fun i : Fin n => sg i.1)
      * Matrix.diagonal (fun i : Fin n => (sg i.1)⁻¹) = 1 := by
    rw [Matrix.diagonal_mul_diagonal,
      show (fun i : Fin n => sg i.1 * (sg i.1)⁻¹) = fun _ : Fin n => (1 : ℚ)
        from funext fun i => mul_inv_cancel₀ (hsg i.1 i.isLt)]
    exact Matrix.diagonal_one
  have hVV : toMat n Vt * (toMat n Vt).transpose = 1 := Matrix.mul_eq_one_comm.mp hV
  have hUU : toMat n U * (toMat n U).transpose = 1 := Matrix.mul_eq_one_comm.mp hU
  have cancelVt : ∀ Z : Matrix (Fin n) (Fin n) ℚ,
      toMat n Vt * ((toMat n Vt).transpose * Z) = Z := fun Z => by
    rw [← Matrix.mul_assoc, hVV, Matrix.one_mul]
  have cancelD : ∀ Z : Matrix (Fin n) (Fin n) ℚ,
      Matrix.diagonal (fun i : Fin n => sg i.1)
        * (Matrix.diagonal (fun i : Fin n => (sg i.1)⁻¹) * Z) = Z := fun Z => by
    rw [← Matrix.mul_assoc, hDD, Matrix.one_mul]
  simp only [Matrix.mul_assoc]
  rw [cancelVt, cancelD]
  exact hUU

theorem l2sq_nonneg (n : ℕ) (v : Fin n → ℚ) : 0 ≤ l2sq n v :=
  Finset.sum_nonneg fun i _ => sq_nonneg (v i)

theorem l2sq_zero (n : ℕ) : l2sq n (0 : Fin n → ℚ) = 0 := by
  simp [l2sq]

/-- With orthogonal factors and all singular values nonzero, the spec's
formula solves the recomposed system exactly and is its minimum-norm
least-squares solution. -/
theorem specSvdSolution_solves (n : ℕ) (U Vt : ℕ → ℕ → ℚ) (sg bq : ℕ → ℚ)
    (hsg : ∀ i, i < n → sg i ≠ 0)
    (hU : (toMat n U).transpose * toMat n U = 1)
    (hV : (toMat n Vt).transpose * toMat n Vt = 1) :
    (svdRecomposed n U Vt sg).mulVec (specSvdSolution n U Vt sg bq) = toVec n bq
    ∧ IsMinNormLS n (svdRecomposed n U Vt sg) (toVec n bq)
        (specSvdSolution n U Vt sg bq) := by
  have hx := specSvdSolution_eq_leftInv_mulVec n U Vt sg bq
  have hsolve : (svdRecomposed n U Vt sg).mulVec (specSvdSolution n U Vt sg bq)
      = toVec n bq := by
    rw [hx, Matrix.mulVec_mulVec, mul_svdLeftInv n U Vt sg hsg hU hV,
      Matrix.one_mulVec]
  refine ⟨hsolve, ?_, ?_⟩
  · intro y
    rw [hsolve, sub_self, l2sq_zero]
    exact l2sq_nonneg n _
  · intro y hy
    rw [hsolve, sub_self, l2sq_zero] at hy
    have h0 : l2sq n ((svdRecomposed n U Vt sg).mulVec y - toVec n bq) = 0 :=
      le_antisymm hy (l2sq_nonneg n _)
    have hyv : (svdRecomposed n U Vt sg).mulVec y = toVec n bq := by
      funext i
      have hterm := (Finset.sum_eq_zero_iff_of_nonneg
        (fun i _ => sq_nonneg (((svdRecomposed n U Vt sg).mulVec y - toVec n bq) i))).mp
        h0 i (Finset.mem_univ i)
      have hzero : ((svdRecomposed n U Vt sg).mulVec y - toVec n bq) i = 0 :=
        (pow_eq_zero_iff (by norm_num)).mp hterm
      rw [Pi.sub_apply] at hzero
      exact sub_eq_zero.mp hzero
    have hxy : y = specSvdSolution n U Vt sg bq := by
      calc y = (1 : Matrix (Fin n) (Fin n) ℚ).mulVec y := (Matrix.one_mulVec y).symm
        _ = (svdLeftInv n U Vt sg * svdRecomposed n U Vt sg).mulVec y := by
            rw [svdLeftInv_mul n U Vt sg hsg hU hV]
        _ = (svdLeftInv n U Vt sg).mulVec ((svdRecomposed n U Vt sg).mulVec y) :=
            (Matrix.mulVec_mulVec y _ _).symm
        _ = (svdLeftInv n U Vt sg).mulVec (toVec n bq) := by rw [hyv]
        _ = specSvdSolution n U Vt sg bq := hx.symm
    rw [hxy]

/-! ## Claim theorems for `SVD` and the frame and allocation claims -/

/-- C1 (amended).  `SVD::solve` computes its output via exactly two
matrix-vector products - `y1 = Uᵀ b`, then `x = V y1` after dividing `y1`
elementwise by the singular values, with no zero guard - so for a square
factorized view with finite factor data, orthogonal factors and all singular
values nonzero, the output equals the spec formula `V Σ⁻¹ Uᵀ b`, which
solves `A x = b` exactly for the factorized matrix `A = U Σ Vᵀ` and is its
minimum-norm least-squares solution.  Under rank deficiency the division by
a zero singular value makes the output nonfinite instead (see the
counterexample). -/
theorem svd_solve_two_gemv_formula
    (st : SVDSt) (n : ℕ) (U Vt : ℕ → ℕ → ℚ) (sg bq : ℕ → ℚ) (b : ℕ → OQ)
    (hnr : st.m_nr = n) (hnc : st.m_nc = n)
    (hldu : st.m_ldu = n) (hldvt : st.m_ldvt = n)
    (hu : ∀ r c, r < n → c < n → st.m_u (c * n + r) = some (U r c))
    (hvt : ∀ r c, r < n → c < n → st.m_vt (c * n + r) = some (Vt r c))
    (hs : ∀ i, i < n → st.m_s i = some (sg i))
    (hb : ∀ i, i < n → b i = some (bq i))
    (hsg : ∀ i, i < n → sg i ≠ 0)
    (hU : (toMat n U).transpose * toMat n U = 1)
    (hV : (toMat n Vt).transpose * toMat n Vt = 1) :
    (SVD.solve st b).gemvCalls = 2
    ∧ (∀ j : Fin n, (SVD.solve st b).x j.1 = some (specSvdSolution n U Vt sg bq j))
    ∧ (svdRecomposed n U Vt sg).mulVec (specSvdSolution n U Vt sg bq) = toVec n bq
    ∧ IsMinNormLS n (svdRecomposed n U Vt sg) (toVec n bq)
        (specSvdSolution n U Vt sg bq) := by
  have hsol := specSvdSolution_solves n U Vt sg bq hsg hU hV
  refine ⟨rfl, ?_, hsol.1, hsol.2⟩
  intro j
  show svdSolveVec st.m_nr st.m_nc st.m_ldu st.m_ldvt st.m_u st.m_s st.m_vt b j.1 = _
  rw [hnr, hnc, hldu, hldvt]
  exact svdSolveVec_formula n U Vt sg bq st.m_u st.m_vt st.m_s b hu hvt hs hb hsg j

/-- Witness for the amended C1: solving the factorized 1-by-1 identity with
`b = [1]` performs two matrix-vector products and yields `x = [1]`. -/
theorem svd_solve_two_gemv_formula_witness :
    (SVD.solve svdStIdentity (fun _ => some 1)).gemvCalls = 2
    ∧ (SVD.solve svdStIdentity (fun _ => some 1)).x 0 = some 1 := by
  have h := svd_solve_two_gemv_formula svdStIdentity 1
    (fun _ _ => 1) (fun _ _ => 1) (fun _ => 1) (fun _ => 1) (fun _ => some 1)
    rfl rfl rfl rfl
    (fun _ _ _ _ => rfl) (fun _ _ _ _ => rfl) (fun _ _ => rfl) (fun _ _ => rfl)
    (fun _ _ => one_ne_zero)
    (by
      ext i j
      fin_cases i
      fin_cases j
      simp [toMat, Matrix.mul_apply, Matrix.one_apply])
    (by
      ext i j
      fin_cases i
      fin_cases j
      simp [toMat, Matrix.mul_apply, Matrix.one_apply])
  refine ⟨h.1, (h.2.1 0).trans ?_⟩
  congr 1
  simp [specSvdSolution, Matrix.mulVec, Matrix.dotProduct, toMat, toVec,
    Fin.sum_univ_one]

/-- Counterexample for C1 as stated: for the factorized rank-deficient
1-by-1 zero matrix (`U = [1]`, `σ = [0]`, `Vt = [1]`, determinant zero) with
`b = [1]`, the minimum-norm least-squares solution is the finite zero
vector, but `SVD::solve` divides by the zero singular value and its output
entry is the nonfinite value `none` - not that solution. -/
theorem svd_solve_rank_deficient_counterexample :
    (SVD.solve svdStRankDef (fun _ => some 1)).x 0 = none
    ∧ (svdRecomposed 1 (fun _ _ => 1) (fun _ _ => 1) (fun _ => 0)).det = 0
    ∧ IsMinNormLS 1 (svdRecomposed 1 (fun _ _ => 1) (fun _ _ => 1) (fun _ => 0))
        (toVec 1 (fun _ => 1)) (0 : Fin 1 → ℚ) := by
  have hA : svdRecomposed 1 (fun _ _ => 1) (fun _ _ => 1) (fun _ => 0)
      = (0 : Matrix (Fin 1) (Fin 1) ℚ) := by
    ext i j
    fin_cases i
    fin_cases j
    simp [svdRecomposed, toMat, Matrix.mul_apply, Matrix.diagonal, Fin.sum_univ_one]
  refine ⟨rfl, ?_, ?_⟩
  · rw [hA]
    simp
  · rw [hA]
    constructor
    · intro y
      rw [Matrix.zero_mulVec, Matrix.zero_mulVec]
    · intro y hy
      rw [l2sq_zero]
      exact l2sq_nonneg 1 y

/-- C4.  After `SVD::factorize`, the stored condition number equals the
ratio `s[0] / s[min(nr, nc) - 1]` of the largest to the smallest singular
value, given the backend contract that the singular values are returned
finite, nonnegative and in descending order (the `fabs` in the source is
then the identity); and the condition number is a pure diagnostic - `solve`
output is independent of the `m_condition_number` field. -/
theorem svd_condition_number_is_ratio
    (st : SVDSt) (g : GesvdOut) (sg0 sgl : ℚ)
    (h0 : g.s 0 = some sg0)
    (hl : g.s (min st.m_nr st.m_nc - 1) = some sgl)
    (hnn : 0 ≤ sgl) (hle : sgl ≤ sg0) :
    (SVD.factorize st g).state.m_condition_number
      = odiv (g.s 0) (g.s (min st.m_nr st.m_nc - 1))
    ∧ ∀ (st2 : SVDSt) (c : OQ) (b : ℕ → OQ),
        (SVD.solve { st2 with m_condition_number := c } b).x
          = (SVD.solve st2 b).x := by
  constructor
  · show oabs (odiv (g.s 0) (g.s (min st.m_nr st.m_nc - 1))) = _
    rw [h0, hl]
    by_cases hz : sgl = 0
    · subst hz
      simp [odiv, oabs]
    · rw [show odiv (some sg0) (some sgl) = some (sg0 / sgl) from by simp [odiv, hz]]
      show some |sg0 / sgl| = some (sg0 / sgl)
      rw [abs_of_nonneg (div_nonneg (hnn.trans hle) hnn)]
  · intro st2 c b
    rfl

/-- Witness for C4: factorizing with singular values all 2 stores condition
number `2 / 2 = 1`. -/
theorem svd_condition_number_is_ratio_witness :
    (SVD.factorize svdStIdentity gesvdExample).state.m_condition_number = some 1 := by
  have h := (svd_condition_number_is_ratio svdStIdentity gesvdExample 2 2
    rfl rfl (by norm_num) (by norm_num)).1
  rw [h]
  show odiv (some 2) (some 2) = some 1
  norm_num [odiv]

/-- C5.  For every strategy in `{DenseLU, BandedLU, DiagonalInv, SVD}`,
`solve` leaves the strategy state - the bound view's element storage, the
pivot and factor buffers and the condition number - unchanged; `b` is
consumed as a read-only input in this embedding.  For `DenseLU` and
`BandedLU` this rests on the backend frame contract that `getrs`/`gbtrs`
return the factored matrix and the pivot array unmodified (hypotheses); the
`DiagonalInv` and `SVD` solves write only `x` and the local `y1`.  Only
`factorize` mutates the view's storage. -/
theorem solve_preserves_state
    (dst : DenseLUSt) (db : ℕ → ℚ) (dg : GetrsOut)
    (bst : BandedLUSt) (bb : ℕ → ℚ) (bg : GetrsOut)
    (v : DiagonalMatrix) (vb : ℕ → OQ)
    (sst : SVDSt) (sb : ℕ → OQ)
    (hda : dg.a = dst.m_view.m_data) (hdp : dg.ipiv = dst.m_ipiv)
    (hba : bg.a = bst.m_view.m_data) (hbp : bg.ipiv = bst.m_ipiv) :
    (DenseLU.solve dst db dg).state = dst
    ∧ (BandedLU.solve bst bb bg).state = bst
    ∧ (DiagonalInv.solve v vb).state = v
    ∧ (SVD.solve sst sb).state = sst := by
  refine ⟨?_, ?_, rfl, rfl⟩
  · rcases dst with ⟨⟨vnr, vnc, vld, vdata⟩, ipiv, len⟩
    dsimp only at hda hdp
    rw [← hda, ← hdp]
    rfl
  · rcases bst with ⟨⟨wnr, wnc, wkl, wku, wld, wdata⟩, ipiv, len⟩
    dsimp only at hba hbp
    rw [← hba, ← hbp]
    rfl

/-- Witness for C5 at concrete states and contract-obeying backend
outputs. -/
theorem solve_preserves_state_witness :
    (DenseLU.solve denseLUExample (fun _ => 1) getrsDenseExample).state = denseLUExample
    ∧ (BandedLU.solve bandedLUExample (fun _ => 1) getrsBandedExample).state
        = bandedLUExample
    ∧ (DiagonalInv.solve ⟨1, fun _ => some 2⟩ (fun _ => some 1)).state
        = (⟨1, fun _ => some 2⟩ : DiagonalMatrix)
    ∧ (SVD.solve svdStIdentity (fun _ => some 1)).state = svdStIdentity :=
  solve_preserves_state denseLUExample (fun _ => 1) getrsDenseExample
    bandedLUExample (fun _ => 1) getrsBandedExample
    ⟨1, fun _ => some 2⟩ (fun _ => some 1) svdStIdentity (fun _ => some 1)
    rfl rfl rfl rfl

/-- C6 (amended).  Every member workspace buffer is allocated exactly once,
at construction time: `DenseLU` and `BandedLU` allocate one pivot buffer of
length `m_nr`; `SVD` allocates `m_s`, `m_u`, `m_vt` with sizes fixed from
the view's dimensions and `m_work` with the size returned by the
construction-time workspace query.  No factorize or solve call resizes any
of these buffers, and the factorize calls and the `DenseLU`, `BandedLU` and
`DiagonalInv` solve calls perform no allocation.  However `SVD::solve`
allocates a fresh temporary buffer `y1` of length `m_nr` on every call, so
the claim that no solve call allocates fails (see the counterexample). -/
theorem workspace_allocation_discipline
    (dv : DenseMatrix) (bv : BandedMatrix) (nr nc ld wq : ℕ) (vd : ℕ → OQ)
    (dst : DenseLUSt) (dg : GetrfOut) (dgs : GetrsOut) (db : ℕ → ℚ)
    (bst : BandedLUSt) (bg : GetrfOut) (bgs : GetrsOut) (bb : ℕ → ℚ)
    (v : DiagonalMatrix) (vb : ℕ → OQ)
    (sst : SVDSt) (sg : GesvdOut) (sb : ℕ → OQ) :
    (DenseLU.mk dv).2 = [dv.m_nr]
    ∧ (BandedLU.mk bv).2 = [bv.m_nr]
    ∧ (SVD.mk nr nc ld vd wq).2 = [min nr nc, nr * nr, nc * nc, wq]
    ∧ (SVD.mk nr nc ld vd wq).1.m_sLen = min nr nc
    ∧ (SVD.mk nr nc ld vd wq).1.m_uLen = nr * nr
    ∧ (SVD.mk nr nc ld vd wq).1.m_vtLen = nc * nc
    ∧ (SVD.mk nr nc ld vd wq).1.m_workLen = wq
    ∧ (DenseLU.mk dv).1.m_ipivLen = dv.m_nr
    ∧ (BandedLU.mk bv).1.m_ipivLen = bv.m_nr
    ∧ (DenseLU.factorize dst dg).allocs = []
    ∧ (DenseLU.factorize dst dg).state.m_ipivLen = dst.m_ipivLen
    ∧ (DenseLU.solve dst db dgs).allocs = []
    ∧ (DenseLU.solve dst db dgs).state.m_ipivLen = dst.m_ipivLen
    ∧ (BandedLU.factorize bst bg).allocs = []
    ∧ (BandedLU.factorize bst bg).state.m_ipivLen = bst.m_ipivLen
    ∧ (BandedLU.solve bst bb bgs).allocs = []
    ∧ (BandedLU.solve bst bb bgs).state.m_ipivLen = bst.m_ipivLen
    ∧ (DiagonalInv.factorize v).allocs = []
    ∧ (DiagonalInv.solve v vb).allocs = []
    ∧ (SVD.factorize sst sg).allocs = []
    ∧ (SVD.factorize sst sg).state.m_sLen = sst.m_sLen
    ∧ (SVD.factorize sst sg).state.m_uLen = sst.m_uLen
    ∧ (SVD.factorize sst sg).state.m_vtLen = sst.m_vtLen
    ∧ (SVD.factorize sst sg).state.m_workLen = sst.m_workLen
    ∧ (SVD.solve sst sb).allocs = [sst.m_nr]
    ∧ (SVD.solve sst sb).state.m_sLen = sst.m_sLen
    ∧ (SVD.solve sst sb).state.m_uLen = sst.m_uLen
    ∧ (SVD.solve sst sb).state.m_vtLen = sst.m_vtLen
    ∧ (SVD.solve sst sb).state.m_workLen = sst.m_workLen := by
  and_intros <;> rfl

/-- Counterexample for C6 as stated: a concrete `SVD::solve` call performs a
buffer allocation (the temporary `y1`, of length `m_nr = 1`), so its
allocation list is not empty. -/
theorem svd_solve_allocates_counterexample :
    (SVD.solve svdStIdentity (fun _ => some 1)).allocs = [1]
    ∧ ((SVD.solve svdStIdentity (fun _ => some 1)).allocs).isEmpty = false :=
  ⟨rfl, rfl⟩

/-- C10.  A freshly constructed `SVD` instance stores the sentinel
`m_condition_number = -1` (the member initializer), and neither the
constructor's workspace query nor any sequence of `solve` calls changes it;
only `factorize` assigns it.  Reading the diagnostic before the first
`factorize` therefore yields `-1`. -/
theorem condition_number_sentinel_before_factorize
    (nr nc ld wq : ℕ) (vd : ℕ → OQ) (bs : List (ℕ → OQ)) :
    (SVD.mk nr nc ld vd wq).1.m_condition_number = some (-1)
    ∧ (SVD.applySolves (SVD.mk nr nc ld vd wq).1 bs).m_condition_number = some (-1)
    ∧ ∀ (st : SVDSt) (b : ℕ → OQ),
        (SVD.solve st b).state.m_condition_number = st.m_condition_number := by
  refine ⟨rfl, ?_, fun _ _ => rfl⟩
  have h : ∀ (st : SVDSt) (l : List (ℕ → OQ)), SVD.applySolves st l = st := by
    intro st l
    induction l with
    | nil => rfl
    | cons b t ih => exact ih
  rw [h]
  rfl

/-- C8 (amended).  Every buffer access in `SVD::solve` is within bounds
exactly when the view is square (`m_nr = m_nc`).  For `m_nr > m_nc` the
division loop reads `m_s` past its length `min(m_nr, m_nc)`; for
`m_nr < m_nc` the second matrix-vector product reads `y1` past its length
`m_nr` (and writes `x` past the row count), so the claim's hypothesis
`m_nr ≤ m_nc` is not sufficient. -/
theorem svdSolveInBounds_iff_square (nr nc : ℕ) :
    svdSolveInBounds nr nc = true ↔ nr = nc := by
  unfold svdSolveInBounds
  rw [decide_eq_true_iff]
  constructor
  · rintro ⟨h1, h2, h3⟩
    have ha : nr ≤ nc := by
      rcases Nat.lt_or_ge nc nr with hlt | hge
      · have := (h2 nc hlt).2
        omega
      · exact hge
    have hb : nc ≤ nr := by
      rcases Nat.lt_or_ge nr nc with hlt | hge
      · have := (h3 nr hlt).2
        omega
      · exact hge
    omega
  · intro h
    subst h
    have hmul : ∀ j k, j < nr → k < nr → j * nr + k < nr * nr := by
      intro j k hj hk
      calc j * nr + k < j * nr + nr := by omega
        _ = (j + 1) * nr := by ring
        _ ≤ nr * nr := Nat.mul_le_mul_right nr hj
    exact ⟨fun j hj k hk => ⟨hmul j k hj hk, hk, hj⟩,
      fun i hi => ⟨hi, by omega⟩,
      fun j hj => ⟨fun k hk => ⟨hmul j k hj hk, hk⟩, hj⟩⟩

/-- Counterexample for C8 as stated: for `m_nr = 1 ≤ 2 = m_nc` the
in-bounds guarantee fails (the second `gemv` reads `y1[1]` although `y1` has
length `m_nr = 1`). -/
theorem svdSolveInBounds_wide_counterexample :
    svdSolveInBounds 1 2 = false ∧ (Nat.ble 1 2) = true := by
  constructor
  · decide
  · rfl
